import Mathlib

/-!
Shallow embedding of `src/api/utils.py` of fragalysis-backend: the SMILES
rendering endpoint with bond-highlight resolution.

RDKit molecules are modelled as index-addressed atom/bond lists.  RDKit and
Django library calls used by the module are either modelled structurally
(AddHs, EditableMol.ReplaceAtom, the hydrogen removal performed by a
SMILES round trip, PIL pixel access) or taken as function parameters
(`Chem.MolFromSmiles`, `canon_input`, the canonical relabelling performed by
`MolFromSmiles(MolToSmiles(...))`, `Draw.MolToImage`).  Python exceptions are
modelled with an `Except` monad; each constructor of `PyErr` names the Python
exception class raised at the corresponding place in the source.
-/

namespace ApiUtils

/-- Python exception classes the module can raise. -/
inductive PyErr where
  | nameError
  | valueError
  | keyError
  | typeError
  | indexError
  | attributeError
deriving DecidableEq

/-- An RGB colour triple, entries in [0,1] (the module uses 0, 0.5 and 1). -/
abbrev Colour := ℚ × ℚ × ℚ

/-- A pixel of a PIL "RGBA" image: red, green, blue, alpha. -/
abbrev RGBA := Nat × Nat × Nat × Nat

/-- Decimal-digit accumulation for `int()`: fails on a non-digit. -/
def digitsValAux : List Char → Nat → Option Nat
  | [], acc => some acc
  | c :: rest, acc =>
    if c.isDigit then digitsValAux rest (acc * 10 + (c.toNat - 48)) else none

/-- Python `int(s)` on the plain decimal strings (with an optional leading
minus sign) this endpoint receives; raises `ValueError` on anything
unparsable. -/
def pyIntCore : List Char → Except PyErr Int
  | [] => .error .valueError
  | l =>
    match digitsValAux l 0 with
    | some n => .ok (n : Int)
    | none => .error .valueError

def pyInt (s : String) : Except PyErr Int :=
  match s.data with
  | '-' :: rest => (pyIntCore rest).map (fun n => -n)
  | l => pyIntCore l

/-- Python `str.split(",")`: splits at every comma; `"".split(",") = [""]`
and adjacent commas yield empty tokens. -/
def splitCommaAux : List Char → List Char → List String
  | [], acc => [⟨acc.reverse⟩]
  | c :: rest, acc =>
    if c = ',' then ⟨acc.reverse⟩ :: splitCommaAux rest []
    else splitCommaAux rest (c :: acc)

def pySplitComma (s : String) : List String :=
  splitCommaAux s.data []

/-- Python `str.lower()` (the tokens compared here are ASCII). -/
def pyLower (s : String) : String :=
  ⟨s.data.map Char.toLower⟩

/-- Python `str.rstrip(chars)`: removes the maximal trailing run of
characters drawn from the set `cs` (NOT a suffix removal). -/
def pyRstrip (cs : List Char) (s : String) : String :=
  ⟨(s.data.reverse.dropWhile (fun c => c ∈ cs)).reverse⟩

/-- Python `"Xe" in s`: substring test, specialised to the marker symbol. -/
def hasXe : List Char → Bool
  | 'X' :: 'e' :: _ => true
  | _ :: rest => hasXe rest
  | [] => false

/-- Python `lst[i]` on a list, raising `IndexError` when out of range. -/
def pyIndex {α : Type} (l : List α) (i : Nat) : Except PyErr α :=
  match l.get? i with
  | some a => .ok a
  | none => .error .indexError

/-! ## The molecule model

An RDKit `Mol` is an indexed collection of atoms and bonds: atom ids and
bond ids are positions in the two lists.  `implicitHs` records the implicit
hydrogen count RDKit attaches to each heavy atom at parse time; it is what
`AllChem.AddHs` expands into explicit hydrogen atoms. -/

structure RAtom where
  atomicNum : Nat
  isotope : Nat
  implicitHs : Nat
deriving DecidableEq

structure Bond where
  beginAtom : Nat
  endAtom : Nat
deriving DecidableEq

structure Mol where
  atoms : List RAtom
  bonds : List Bond
deriving DecidableEq

/-- Atom ids of the atoms satisfying `p`, in index order. -/
def atomIdsWhere (m : Mol) (p : RAtom → Bool) : List Nat :=
  (List.range m.atoms.length).filter (fun j => (m.atoms.get? j).any p)

/-- `atom.GetIsotope()` for the atom with id `x` (0 when `x` is out of
range, which never happens on the ids this module produces). -/
def atomIsotope (m : Mol) (x : Nat) : Nat :=
  ((m.atoms.get? x).map RAtom.isotope).getD 0

/-- Bond ids of the bonds incident to atom `a`, in index order: the model of
`atom.GetBonds()` (whose order agrees with the molecule's bond order for
molecules built by parsing). -/
def atomBondIds (m : Mol) (a : Nat) : List Nat :=
  (List.range m.bonds.length).filter
    (fun j => (m.bonds.get? j).any (fun bd => bd.beginAtom = a || bd.endAtom = a))

/-- `mol.GetBondBetweenAtoms(a, b)`: the id of the first bond joining `a`
and `b` in either direction, if any. -/
def getBondBetween (m : Mol) (a b : Int) : Option Nat :=
  ((List.range m.bonds.length).filter
    (fun j => (m.bonds.get? j).any
      (fun bd => ((bd.beginAtom : Int) == a && (bd.endAtom : Int) == b)
        || ((bd.beginAtom : Int) == b && (bd.endAtom : Int) == a)))).head?

/-- `EditableMol.ReplaceAtom(i, a)`: bonds are untouched. -/
def replaceAtom (m : Mol) (i : Nat) (a : RAtom) : Mol :=
  { m with atoms := m.atoms.set i a }

/-- `Atom(0)`: a zero atomic-number wildcard atom. -/
def dummyAtom : RAtom := ⟨0, 0, 0⟩

/-- `AllChem.AddHs(mol)`: appends one explicit hydrogen atom, and one bond
to its parent, for every implicit hydrogen, in atom-id order; the originals
keep their ids and lose their implicit count. -/
def addHs (m : Mol) : Mol :=
  let base := m.atoms.length
  let parents := (List.range m.atoms.length).flatMap
    (fun j => List.replicate (((m.atoms.get? j).map RAtom.implicitHs).getD 0) j)
  { atoms := m.atoms.map (fun a => { a with implicitHs := 0 })
      ++ parents.map (fun _ => (⟨1, 0, 0⟩ : RAtom)),
    bonds := m.bonds ++ (List.range parents.length).filterMap
      (fun k => (parents.get? k).map (fun j => (⟨j, base + k⟩ : Bond))) }

/-- True of atoms that survive the hydrogen removal of a SMILES round trip:
everything except plain (isotope-free) hydrogens. -/
def keepAtom (a : RAtom) : Bool :=
  !(a.atomicNum = 1 && a.isotope = 0)

/-- The hydrogen removal performed by `MolFromSmiles(MolToSmiles(mol))`:
plain hydrogens disappear, the remaining atoms and their bonds are
renumbered order-preservingly.  (The canonical relabelling the round trip
also performs is a separate abstract parameter, `reindex` below.) -/
def removeHs (m : Mol) : Mol :=
  let keep : Nat → Bool := fun j => (m.atoms.get? j).any keepAtom
  { atoms := ((List.range m.atoms.length).filter keep).filterMap (fun j => m.atoms.get? j),
    bonds := m.bonds.filterMap (fun bd =>
      if keep bd.beginAtom && keep bd.endAtom then
        some ⟨((List.range bd.beginAtom).filter keep).length,
              ((List.range bd.endAtom).filter keep).length⟩
      else none) }

/-- A molecule with no plain explicit hydrogen atoms — the shape
`Chem.MolFromSmiles` output has here. -/
def plainHfree (m : Mol) : Prop :=
  ∀ a ∈ m.atoms, keepAtom a = true

/-- Every bond endpoint is a valid atom id. -/
def molWF (m : Mol) : Prop :=
  ∀ bd ∈ m.bonds, bd.beginAtom < m.atoms.length ∧ bd.endAtom < m.atoms.length

/-! ## Python dict model

`bond_colours` is a Python dict keyed by bond id: assignment overwrites an
existing key in place, otherwise appends; lookup finds the unique entry. -/

def dictFind (d : List (Nat × Colour)) (k : Nat) : Option Colour :=
  match d with
  | [] => none
  | p :: rest => if p.1 = k then some p.2 else dictFind rest k

def dictSet (d : List (Nat × Colour)) (k : Nat) (v : Colour) : List (Nat × Colour) :=
  if (dictFind d k).isSome then
    d.map (fun p => if p.1 = k then (k, v) else p)
  else d ++ [(k, v)]

def dictKeys (d : List (Nat × Colour)) : List Nat :=
  d.map Prod.fst

/-! ## Module-level constants and small helpers of `api/utils.py` -/

/-- The fixed isotope-to-colour table `ISO_COLOUR_MAP`. -/
def ISO_COLOUR_MAP : List (Int × Colour) :=
  [ (100, (1, 0, 0)),
    (101, (0, 1, 0)),
    (102, (0, 0, 1)),
    (103, (1, 0, 1)),
    (104, (1, 1, 0)),
    (105, (0, 1, 1)),
    (106, (mkRat 1 2, mkRat 1 2, mkRat 1 2)),
    (107, (1, mkRat 1 2, 1)) ]

/-- `ISO_COLOUR_MAP[iso]` as an expression: a missing key raises `KeyError`. -/
def isoColour (d : List (Int × Colour)) (k : Int) : Option Colour :=
  match d with
  | [] => none
  | p :: rest => if p.1 = k then some p.2 else isoColour rest k

def isoLookup (k : Int) : Except PyErr Colour :=
  match isoColour ISO_COLOUR_MAP k with
  | some c => .ok c
  | none => .error .keyError

/-- The names defined at module level in `api/utils.py` (imports, the
constant and the function defs).  `options`, used in the raster branch of
`draw_mol`, is not among them. -/
def moduleGlobalNames : List String :=
  [ "ET", "User", "ObjectDoesNotExist", "HttpResponse", "Chem", "AllChem",
    "Draw", "Atom", "re", "DrawingOptions", "rdMolDraw2D", "Token",
    "get_fragments", "canon_input", "ISO_COLOUR_MAP", "get_token",
    "_transparentsvg", "draw_mol", "parse_vectors", "parse_bool",
    "parse_atom_ids", "parse_xenons", "get_params", "mol_view" ]

/-- `parse_vectors`: `[int(x) for x in vector_list.split(",")]`. -/
def parse_vectors (vector_list : String) : Except PyErr (List Int) :=
  (pySplitComma vector_list).mapM pyInt

/-- `parse_bool`. -/
def parse_bool (input_string : String) : Except PyErr Bool :=
  if pyLower input_string ∈ ["yes", "true", "t", "y", "1"] then .ok true
  else if pyLower input_string ∈ ["no", "false", "f", "n", "0"] then .ok false
  else .error .valueError

/-! ## `parse_atom_ids`

The source walks the comma-split token list with an index `i`, dispatching
on `i % 4`: positions 0 and 1 collect an atom-id pair, position 2 an isotope
code, and position 3 a boolean flag that triggers the whole group's work.
The loop state below carries exactly the Python locals that survive an
iteration. -/

structure AIState where
  bond_ids : List Nat
  atom_ids : List Int
  bond_colours : List (Nat × Colour)
  mol : Option Mol
  iso : Option Int
deriving DecidableEq

/-- One iteration of the `for i, data in enumerate(spl_list)` body.
`reindex` is the abstract canonical relabelling that the
`MolFromSmiles(MolToSmiles(mol))` round trip performs after the structural
hydrogen removal (`removeHs`). -/
def aiStep (reindex : Mol → Mol) (i : Nat) (tok : String) (st : AIState) :
    Except PyErr AIState :=
  if i % 4 = 0 ∨ i % 4 = 1 then
    match pyInt tok with
    | .error e => .error e
    | .ok n => .ok { st with atom_ids := st.atom_ids ++ [n] }
  else if i % 4 = 2 then
    match pyInt tok with
    | .error e => .error e
    | .ok n => .ok { st with iso := some n }
  else
    match parse_bool tok with
    | .error e => .error e
    | .ok add_hs =>
      match pyIndex st.atom_ids 0 with
      | .error e => .error e
      | .ok a1 =>
        match pyIndex st.atom_ids 1 with
        | .error e => .error e
        | .ok a2 =>
          let resolved : Except PyErr (Mol × Int × Int) :=
            if add_hs then
              match st.mol with
              | none => .error .typeError
              | some m0 =>
                let m1 := addHs m0
                let hIds := atomIdsWhere m1 (fun a => a.atomicNum = 1)
                match (hIds.filter (fun j => Int.ofNat j == a1 || Int.ofNat j == a2)).head? with
                | none => .error .indexError
                | some r =>
                  let m3 := reindex (removeHs (replaceAtom m1 r dummyAtom))
                  let dummies := atomIdsWhere m3 (fun a => a.atomicNum = 0)
                  match dummies.mapM (fun j =>
                      match (atomBondIds m3 j).head? with
                      | none => (.error .indexError : Except PyErr (Int × Int))
                      | some b =>
                        match m3.bonds.get? b with
                        | none => .error .indexError
                        | some bd => .ok ((bd.beginAtom : Int), (bd.endAtom : Int))) with
                  | .error e => .error e
                  | .ok pairs =>
                    match pairs.head? with
                    | none => .error .indexError
                    | some (x, y) => .ok (m3, x, y)
            else
              match st.mol with
              | none => .error .attributeError
              | some m0 => .ok (m0, a1, a2)
          match resolved with
          | .error e => .error e
          | .ok (mcur, x1, x2) =>
            match getBondBetween mcur x1 x2 with
            | none => .error .attributeError
            | some b =>
              match st.iso with
              | none => .error .nameError
              | some iso =>
                match isoLookup iso with
                | .error e => .error e
                | .ok colour =>
                  .ok { bond_ids := st.bond_ids ++ [b],
                        atom_ids := [],
                        bond_colours := dictSet st.bond_colours b colour,
                        mol := some mcur,
                        iso := st.iso }

def aiLoop (reindex : Mol → Mol) : List String → Nat → AIState → Except PyErr AIState
  | [], _, st => .ok st
  | tok :: rest, i, st =>
    match aiStep reindex i tok st with
    | .error e => .error e
    | .ok st1 => aiLoop reindex rest (i + 1) st1

def initAIState (mol : Option Mol) : AIState :=
  { bond_ids := [], atom_ids := [], bond_colours := [], mol := mol, iso := none }

/-- `parse_atom_ids` on an already-split token list. -/
def parse_atom_ids_toks (reindex : Mol → Mol) (toks : List String) (mol : Option Mol) :
    Except PyErr (List Nat × List (Nat × Colour) × Option Mol) :=
  match aiLoop reindex toks 0 (initAIState mol) with
  | .error e => .error e
  | .ok st => .ok (st.bond_ids, st.bond_colours, st.mol)

/-- `parse_atom_ids(input_list, mol)`. -/
def parse_atom_ids (reindex : Mol → Mol) (input_list : String) (mol : Option Mol) :
    Except PyErr (List Nat × List (Nat × Colour) × Option Mol) :=
  parse_atom_ids_toks reindex (pySplitComma input_list) mol

/-! ## `parse_xenons` -/

/-- The colour the loop body assigns for marker atom `x`: with more than one
marker, `ISO_COLOUR_MAP[xe.GetIsotope()]`; with exactly one,
`ISO_COLOUR_MAP[101]`. -/
def xeColour (m : Mol) (count : Nat) (x : Nat) : Except PyErr Colour :=
  if 1 < count then isoLookup (atomIsotope m x) else isoLookup 101

/-- The `for xe in xenons` loop; all reads go to the unedited parse result
`m` (the `EditableMol` is a copy), and the `ReplaceAtom` edits are folded in
afterwards by `parse_xenons`. -/
def xeLoop (m : Mol) (count : Nat) :
    List Nat → List Nat × List (Nat × Colour) → Except PyErr (List Nat × List (Nat × Colour))
  | [], acc => .ok acc
  | x :: rest, acc =>
    match (atomBondIds m x).head? with
    | none => .error .indexError
    | some b =>
      match xeColour m count x with
      | .error e => .error e
      | .ok c => xeLoop m count rest (acc.1 ++ [b], dictSet acc.2 b c)

/-- `parse_xenons(input_smi)`. -/
def parse_xenons (mfs : String → Option Mol) (input_smi : String) :
    Except PyErr (List Nat × List (Nat × Colour) × Mol) :=
  match mfs input_smi with
  | none => .error .typeError
  | some m =>
    let xe := atomIdsWhere m (fun a => a.atomicNum = 54)
    match xeLoop m xe.length xe ([], []) with
    | .error e => .error e
    | .ok (ids, cols) =>
      .ok (ids, cols, xe.foldl (fun mm j => replaceAtom mm j dummyAtom) m)

/-! ## `draw_mol` -/

/-- The value `draw_mol` produces: the sentinel text, a PNG `HttpResponse`
(carried as its pixel data), or the SVG drawing (carried as the arguments
handed to the `rdMolDraw2D` drawer, which draws the molecule once with the
highlights and once without). -/
inductive DrawOut where
  | text (s : String)
  | png (pixels : List RGBA)
  | svg (m : Mol) (highlightAtoms : List Int) (atomcolors : List (Nat × Colour))
      (highlightBonds : List Nat) (bondcolors : List (Nat × Colour))
      (height width : Int)
deriving DecidableEq

/-- The body of the pixel loop: pure white becomes transparent white,
everything else is kept. -/
def whitePixel (p : RGBA) : RGBA :=
  if p.1 == 255 && p.2.1 == 255 && p.2.2.1 == 255 then (255, 255, 255, 0) else p

/-- The `newData` accumulation over `img.getdata()` followed by
`img.putdata(newData)`. -/
def whiteTransparent (pixels : List RGBA) : List RGBA :=
  pixels.map whitePixel

/-- `draw_mol`.  `mfs` stands for `Chem.MolFromSmiles` and `molToImage` for
`Draw.MolToImage` (the bitmap renderer, abstract).  `Compute2DCoords` and
`Kekulize` only touch coordinates and bond-order flags, which the model
does not carry.  In the raster branch the argument expression
`options=options` is evaluated first: `options` is a plain name resolved
against the module globals, so the branch checks `moduleGlobalNames`. -/
def draw_mol (mfs : String → Option Mol)
    (molToImage : Mol → List Nat → List (Nat × Colour) → List RGBA)
    (smiles : String) (height width : Option Int) (img_type : Option String)
    (highlightAtoms : List Int) (atomcolors : List (Nat × Colour))
    (highlightBonds : List Nat) (bondcolors : List (Nat × Colour))
    (mol : Option Mol) : Except PyErr DrawOut :=
  let mol := match mol with
    | none => mfs smiles
    | some m => some m
  match mol with
  | none => .ok (.text "None Mol")
  | some m =>
    let height := match height with | none => 200 | some 0 => 200 | some h => h
    let width := match width with | none => 200 | some 0 => 200 | some w => w
    if img_type = some "png" then
      if "options" ∈ moduleGlobalNames then
        .ok (.png (whiteTransparent (molToImage m highlightBonds bondcolors)))
      else .error .nameError
    else
      .ok (.svg m highlightAtoms atomcolors highlightBonds bondcolors height width)

/-! ## `get_params` and `mol_view` -/

/-- The GET parameters of the request that this module reads. -/
structure HttpReq where
  smiles : Option String
  height : Option String
  width : Option String
  atom_indices : Option String
  img_type : Option String

/-- Lines 207-222 of `get_params`: the highlight bond ids, the bond-colour
dict and the molecule that will be handed to `draw_mol`, starting from the
already-canonicalised SMILES.  The two strategies are two successive `if`
statements, not an `if`/`elif`. -/
def resolve_highlights (mfs : String → Option Mol) (reindex : Mol → Mol)
    (smiles : String) (req : HttpReq) :
    Except PyErr (List Nat × List (Nat × Colour) × Option Mol) :=
  let fromIds : Except PyErr (List Nat × List (Nat × Colour) × Option Mol) :=
    match req.atom_indices with
    | some ai => parse_atom_ids reindex ai (mfs smiles)
    | none => .ok ([], [], none)
  match fromIds with
  | .error e => .error e
  | .ok st =>
    if hasXe smiles.data then
      match parse_xenons mfs smiles with
      | .error e => .error e
      | .ok (ids, cols, m) => .ok (ids, cols, some m)
    else .ok st

/-- `int(request.GET[...])` for an optional parameter. -/
def pyOptInt (o : Option String) : Except PyErr (Option Int) :=
  match o with
  | some s =>
    match pyInt s with
    | .error e => .error e
    | .ok n => .ok (some n)
  | none => .ok none

/-- `get_params(smiles, request)`.  `canon` stands for `canon_input`; the
bare `except` clause turns any canonicalisation failure into `""`.  The
trailing `HttpResponse` wrapping preserves the payload, so the model
returns the `DrawOut` payload itself. -/
def get_params (canon : String → Option String) (mfs : String → Option Mol)
    (reindex : Mol → Mol)
    (molToImage : Mol → List Nat → List (Nat × Colour) → List RGBA)
    (smiles : String) (req : HttpReq) : Except PyErr DrawOut :=
  let smiles := match canon smiles with | some s => s | none => ""
  match pyOptInt req.height with
  | .error e => .error e
  | .ok height =>
    match pyOptInt req.width with
    | .error e => .error e
    | .ok width =>
      match resolve_highlights mfs reindex smiles req with
      | .error e => .error e
      | .ok (bond_id_list, highlightBondColors, mol) =>
        draw_mol mfs molToImage smiles height width req.img_type
          [] [] bond_id_list highlightBondColors mol

/-- The character set of `rstrip(".svg")` and the strip `mol_view` applies. -/
def stripSvg (s : String) : String :=
  pyRstrip ['.', 's', 'v', 'g'] s

/-- `mol_view(request)`. -/
def mol_view (canon : String → Option String) (mfs : String → Option Mol)
    (reindex : Mol → Mol)
    (molToImage : Mol → List Nat → List (Nat × Colour) → List RGBA)
    (req : HttpReq) : Except PyErr DrawOut :=
  match req.smiles with
  | some s => get_params canon mfs reindex molToImage (stripSvg s) req
  | none => .ok (.text "Please insert SMILES")

/-! ## Concrete molecules used by witnesses and counterexamples -/

/-- A three-carbon molecule whose atoms 1 and 2 are joined by bond 0. -/
def molW : Mol := ⟨[⟨6, 0, 0⟩, ⟨6, 0, 0⟩, ⟨6, 0, 0⟩], [⟨1, 2⟩]⟩

/-- The molecule of the SMILES `[100Xe][101Xe]`: two marker atoms bonded to
each other, so both have bond 0 as their unique incident bond. -/
def molXX : Mol := ⟨[⟨54, 100, 0⟩, ⟨54, 101, 0⟩], [⟨0, 1⟩]⟩

/-- The molecule of the SMILES `C[100Xe]`: one marker on a methyl carbon. -/
def molCXe : Mol := ⟨[⟨6, 0, 3⟩, ⟨54, 100, 0⟩], [⟨0, 1⟩]⟩

/-- The molecule of the SMILES `[100Xe]C[101Xe]`: two markers on one
carbon, with distinct incident bonds 0 and 1. -/
def mol2Xe : Mol := ⟨[⟨6, 0, 2⟩, ⟨54, 100, 0⟩, ⟨54, 101, 0⟩], [⟨0, 1⟩, ⟨0, 2⟩]⟩

/-- A `MolFromSmiles` instance recognising only the SMILES `C[100Xe]`. -/
def mfsCXe : String → Option Mol :=
  fun s => if s = "C[100Xe]" then some molCXe else none

/-! ## Claims about the small helpers -/

/-- Claim C9: `parse_bool` returns `True` exactly on the case-insensitive
token set yes/true/t/y/1, `False` exactly on no/false/f/n/0, and raises
`ValueError` on every other input string. -/
theorem claim_C9 (s : String) :
    (pyLower s ∈ ["yes", "true", "t", "y", "1"] → parse_bool s = .ok true) ∧
    (pyLower s ∈ ["no", "false", "f", "n", "0"] → parse_bool s = .ok false) ∧
    (pyLower s ∉ ["yes", "true", "t", "y", "1"] →
      pyLower s ∉ ["no", "false", "f", "n", "0"] →
      parse_bool s = .error .valueError) := by
  refine ⟨fun h => ?_, fun h => ?_, fun h1 h2 => ?_⟩
  · simp [parse_bool, h]
  · have hA : pyLower s ∉ ["yes", "true", "t", "y", "1"] := by
      intro hA
      simp only [List.mem_cons, List.not_mem_nil, or_false] at h hA
      rcases h with h | h | h | h | h <;> rcases hA with hA | hA | hA | hA | hA <;>
        rw [h] at hA <;> exact absurd hA (by decide)
    simp [parse_bool, hA, h]
  · simp [parse_bool, h1, h2]

/-- Witness for C9 at the inputs "Yes", "NO" and "maybe". -/
theorem claim_C9_witness :
    parse_bool "Yes" = .ok true ∧ parse_bool "NO" = .ok false ∧
    parse_bool "maybe" = .error .valueError :=
  ⟨(claim_C9 "Yes").1 (by decide), (claim_C9 "NO").2.1 (by decide),
    (claim_C9 "maybe").2.2 (by decide) (by decide)⟩

/-- Claim C4: when the input SMILES does not parse and no pre-built molecule
is supplied, `draw_mol` returns exactly the sentinel text "None Mol" and
raises nothing. -/
theorem claim_C4 (mfs : String → Option Mol)
    (molToImage : Mol → List Nat → List (Nat × Colour) → List RGBA)
    (smiles : String) (height width : Option Int) (img_type : Option String)
    (hlA : List Int) (ac : List (Nat × Colour)) (hlB : List Nat)
    (bc : List (Nat × Colour)) (hparse : mfs smiles = none) :
    draw_mol mfs molToImage smiles height width img_type hlA ac hlB bc none =
      .ok (.text "None Mol") := by
  simp [draw_mol, hparse]

/-- Witness for C4 on a parser that rejects everything. -/
theorem claim_C4_witness :
    draw_mol (fun _ => none) (fun _ _ _ => []) "not-a-smiles" none none none
      [] [] [] [] none = .ok (.text "None Mol") :=
  claim_C4 (fun _ => none) (fun _ _ _ => []) "not-a-smiles" none none none
    [] [] [] [] rfl

/-- Claim C2: `options`, the name the raster branch passes to the image
call, is not defined at module level, so for every molecule that parses
successfully a `png` request raises `NameError` — the branch never returns
a response and its pixel post-processing is unreachable. -/
theorem claim_C2 (mfs : String → Option Mol)
    (molToImage : Mol → List Nat → List (Nat × Colour) → List RGBA)
    (smiles : String) (height width : Option Int)
    (hlA : List Int) (ac : List (Nat × Colour)) (hlB : List Nat)
    (bc : List (Nat × Colour)) (molArg : Option Mol) (m : Mol)
    (hmol : molArg = some m ∨ (molArg = none ∧ mfs smiles = some m)) :
    "options" ∉ moduleGlobalNames ∧
    draw_mol mfs molToImage smiles height width (some "png") hlA ac hlB bc molArg =
      .error .nameError := by
  refine ⟨by decide, ?_⟩
  have hopt : "options" ∉ moduleGlobalNames := by decide
  rcases hmol with h | ⟨h, h2⟩
  · subst h
    simp [draw_mol, hopt]
  · subst h
    simp [draw_mol, h2, hopt]

/-- Witness for C2: a parsed molecule with `img_type = "png"`. -/
theorem claim_C2_witness :
    draw_mol (fun _ => none) (fun _ _ _ => []) "CCC" none none (some "png")
      [] [] [] [] (some molW) = .error .nameError :=
  (claim_C2 (fun _ => none) (fun _ _ _ => []) "CCC" none none [] [] [] []
    (some molW) molW (Or.inl rfl)).2

/-- Claim C7: the raster post-processing `whiteTransparent` maps every pure
white pixel to fully transparent white (alpha 0) and keeps every other
pixel, all four channels, unchanged; the pixel count is preserved. -/
theorem claim_C7 (pixels : List RGBA) :
    (whiteTransparent pixels).length = pixels.length ∧
    ∀ i p, pixels.get? i = some p →
      (whiteTransparent pixels).get? i =
        some (if p.1 = 255 ∧ p.2.1 = 255 ∧ p.2.2.1 = 255 then (255, 255, 255, 0) else p) := by
  constructor
  · simp [whiteTransparent]
  · intro i p hp
    simp only [whiteTransparent, List.get?_map, hp, Option.map_some]
    by_cases h : p.1 = 255 ∧ p.2.1 = 255 ∧ p.2.2.1 = 255
    · rcases h with ⟨h1, h2, h3⟩
      simp [whitePixel, h1, h2, h3]
    · simp only [if_neg h]
      have : (p.1 == 255 && p.2.1 == 255 && p.2.2.1 == 255) = false := by
        rcases Decidable.not_and_iff_or_not.1 h with h' | h'
        · simp [h']
        · rcases Decidable.not_and_iff_or_not.1 h' with h'' | h''
          · simp [h'']
          · simp [h'']
      simp [whitePixel, this]

/-- Witness for C7 on a two-pixel bitmap: the white pixel loses its alpha,
the coloured one is untouched. -/
theorem claim_C7_witness :
    (whiteTransparent [(255, 255, 255, 7), (1, 2, 3, 4)]).get? 0 =
      some (255, 255, 255, 0) ∧
    (whiteTransparent [(255, 255, 255, 7), (1, 2, 3, 4)]).get? 1 =
      some (1, 2, 3, 4) := by
  have h0 := (claim_C7 [(255, 255, 255, 7), (1, 2, 3, 4)]).2 0 (255, 255, 255, 7) rfl
  have h1 := (claim_C7 [(255, 255, 255, 7), (1, 2, 3, 4)]).2 1 (1, 2, 3, 4) rfl
  constructor
  · simpa using h0
  · simpa using h1

/-! ## Claim C3: the `.svg` strip of `mol_view` -/

/-- Helper: the head given by `head?` is a member. -/
theorem mem_of_head?_eq {α : Type} {l : List α} {a : α} (h : l.head? = some a) :
    a ∈ l := by
  cases l with
  | nil => cases h
  | cons b t =>
    injection h with h
    subst h
    exact List.mem_cons_self b t

/-- Modelled from the spec's words, for comparison with `stripSvg`: remove
exactly one trailing ".svg" suffix when present, otherwise leave the string
unchanged. -/
def claimedStrip (s : String) : String :=
  if [ '.', 's', 'v', 'g' ].isSuffixOf s.data then
    ⟨s.data.take (s.data.length - 4)⟩
  else s

/-- Counterexample for C3: `mol_view` strips with Python `rstrip`, a
character-set strip, not a one-suffix strip: "CCs" does not end in ".svg"
yet loses its final letter, and "CC.svg.svg" loses both copies. -/
theorem claim_C3_counterexample :
    stripSvg "CCs" = "CC" ∧ claimedStrip "CCs" = "CCs" ∧
    stripSvg "CC.svg.svg" = "CC" ∧ claimedStrip "CC.svg.svg" = "CC.svg" ∧
    stripSvg "CCs" ≠ claimedStrip "CCs" ∧
    stripSvg "CC.svg.svg" ≠ claimedStrip "CC.svg.svg" := by
  refine ⟨rfl, rfl, rfl, rfl, by decide, by decide⟩

/-- Claim C3, amended: `mol_view` removes the maximal trailing run of
characters drawn from the set {'.', 's', 'v', 'g'} (Python `rstrip`
semantics): stripping absorbs every trailing ".svg" repetition, and a
SMILES whose final character is outside that set is passed to `get_params`
unchanged. -/
theorem claim_C3 :
    (∀ (s : String) (c : Char), s.data.getLast? = some c →
      c ∉ ([ '.', 's', 'v', 'g' ] : List Char) → stripSvg s = s) ∧
    (∀ s : String, stripSvg (s ++ ".svg") = stripSvg s) := by
  constructor
  · intro s c hlast hc
    have hhead : s.data.reverse.head? = some c := by
      rw [List.head?_reverse]
      exact hlast
    have hrev : s.data.reverse = c :: s.data.reverse.tail :=
      List.eq_cons_of_mem_head? (Option.mem_def.2 hhead)
    unfold stripSvg pyRstrip
    rw [hrev, List.dropWhile_cons, if_neg (by simpa using hc), ← hrev,
      List.reverse_reverse]
  · intro s
    unfold stripSvg pyRstrip
    have hdata : (s ++ ".svg").data = s.data ++ [ '.', 's', 'v', 'g' ] := by
      rw [String.data_append]
    rw [hdata, List.reverse_append]
    rfl

/-- Witness for C3 at "CCO" (final character outside the strip set) and at
"CC" with one ".svg" suffix appended. -/
theorem claim_C3_witness :
    stripSvg "CCO" = "CCO" ∧ stripSvg ("CC" ++ ".svg") = stripSvg "CC" :=
  ⟨claim_C3.1 "CCO" 'O' rfl (by decide), claim_C3.2 "CC"⟩

/-- Claim C6: the `atom_indices` spec "1,2,104,False" on a molecule whose
atoms 1 and 2 are bonded yields exactly that one bond id, coloured with the
isotope-104 entry (1,1,0) of the colour table; the molecule is returned
unchanged. -/
theorem claim_C6 (reindex : Mol → Mol) (m : Mol) (b : Nat)
    (hb : getBondBetween m 1 2 = some b) :
    parse_atom_ids reindex "1,2,104,False" (some m) =
      .ok ([b], [(b, ((1 : ℚ), (1 : ℚ), (0 : ℚ)))], some m) := by
  simp [parse_atom_ids, parse_atom_ids_toks, pySplitComma, splitCommaAux,
    aiLoop, aiStep, initAIState, pyInt, pyIntCore, digitsValAux, pyIndex,
    parse_bool, pyLower, isoLookup, isoColour, ISO_COLOUR_MAP, dictSet,
    dictFind, hb]

/-- Witness for C6 on the three-carbon molecule `molW`, whose atoms 1 and 2
are joined by bond 0. -/
theorem claim_C6_witness :
    parse_atom_ids (fun m => m) "1,2,104,False" (some molW) =
      .ok ([0], [(0, ((1 : ℚ), (1 : ℚ), (0 : ℚ)))], some molW) :=
  claim_C6 (fun m => m) molW 0 rfl

/-! ## Claim C10: incomplete trailing groups are ignored -/

/-- The token loop splits over list append, with the index shifted. -/
theorem aiLoop_append (reindex : Mol → Mol) (l1 l2 : List String) (i : Nat)
    (st : AIState) :
    aiLoop reindex (l1 ++ l2) i st =
      (match aiLoop reindex l1 i st with
       | .error e => .error e
       | .ok st1 => aiLoop reindex l2 (i + l1.length) st1) := by
  induction l1 generalizing i st with
  | nil => simp [aiLoop]
  | cons t rest ih =>
    simp only [List.cons_append, aiLoop]
    cases aiStep reindex i t st with
    | error e => rfl
    | ok st1 =>
      show aiLoop reindex (rest ++ l2) (i + 1) st1 =
        (match aiLoop reindex rest (i + 1) st1 with
         | Except.error e => (Except.error e : Except PyErr AIState)
         | Except.ok st2 => aiLoop reindex l2 (i + (t :: rest).length) st2)
      rw [ih]
      cases aiLoop reindex rest (i + 1) st1 with
      | error e => rfl
      | ok st2 =>
        show aiLoop reindex l2 (i + 1 + rest.length) st2 =
          aiLoop reindex l2 (i + (t :: rest).length) st2
        have heq : i + 1 + rest.length = i + (t :: rest).length := by
          simp only [List.length_cons]
          omega
        rw [heq]

/-- Running the loop over at most three tokens from a group boundary only
parses integers into `atom_ids`/`iso`: the outputs (bond ids, colours,
molecule) are untouched and no error is raised. -/
theorem aiLoop_partial_group (reindex : Mol → Mol) (extras : List String)
    (i : Nat) (st : AIState) (hlen : extras.length ≤ 3) (hi : i % 4 = 0)
    (hint : ∀ t ∈ extras, ∃ n, pyInt t = .ok n) :
    ∃ st1, aiLoop reindex extras i st = .ok st1 ∧
      st1.bond_ids = st.bond_ids ∧ st1.bond_colours = st.bond_colours ∧
      st1.mol = st.mol := by
  rcases extras with _ | ⟨a, _ | ⟨b, _ | ⟨c, _ | ⟨d, t⟩⟩⟩⟩
  · exact ⟨st, rfl, rfl, rfl, rfl⟩
  · obtain ⟨n1, h1⟩ := hint a (by simp)
    refine ⟨{ st with atom_ids := st.atom_ids ++ [n1] }, ?_, rfl, rfl, rfl⟩
    simp [aiLoop, aiStep, hi, h1]
  · obtain ⟨n1, h1⟩ := hint a (by simp)
    obtain ⟨n2, h2⟩ := hint b (by simp)
    have hi1 : (i + 1) % 4 = 1 := by omega
    refine ⟨{ st with atom_ids := st.atom_ids ++ [n1] ++ [n2] }, ?_, rfl, rfl, rfl⟩
    simp [aiLoop, aiStep, hi, hi1, h1, h2]
  · obtain ⟨n1, h1⟩ := hint a (by simp)
    obtain ⟨n2, h2⟩ := hint b (by simp)
    obtain ⟨n3, h3⟩ := hint c (by simp)
    have hi1 : (i + 1) % 4 = 1 := by omega
    have hi2 : (i + 1 + 1) % 4 = 2 := by omega
    refine ⟨{ st with atom_ids := st.atom_ids ++ [n1] ++ [n2], iso := some n3 },
      ?_, rfl, rfl, rfl⟩
    simp [aiLoop, aiStep, hi, hi1, hi2, h1, h2, h3]
  · exfalso
    simp only [List.length_cons] at hlen
    omega

/-- Claim C10: `parse_atom_ids` does not enforce the multiple-of-4 length
contract.  When the comma-split token list is a multiple-of-4 prefix plus
one to three trailing tokens whose group positions 0-2 parse as integers,
the trailing tokens contribute no bond id and no colour entry, no error is
raised for the incomplete group, and the result equals the run on the
prefix alone. -/
theorem claim_C10 (reindex : Mol → Mol) (s : String) (mol : Option Mol)
    (toks extras : List String)
    (hsplit : pySplitComma s = toks ++ extras)
    (hlen4 : toks.length % 4 = 0)
    (hr1 : 1 ≤ extras.length) (hr3 : extras.length ≤ 3)
    (hint : ∀ t ∈ extras, ∃ n, pyInt t = .ok n) :
    parse_atom_ids reindex s mol = parse_atom_ids_toks reindex toks mol := by
  unfold parse_atom_ids
  rw [hsplit]
  unfold parse_atom_ids_toks
  rw [aiLoop_append]
  cases h : aiLoop reindex toks 0 (initAIState mol) with
  | error e => rfl
  | ok st =>
    obtain ⟨st1, hrun, hbi, hbc, hm⟩ :=
      aiLoop_partial_group reindex extras (0 + toks.length) st hr3 (by omega) hint
    simp only [hrun, hbi, hbc, hm]

/-- Witness for C10: two trailing integer tokens after an empty prefix. -/
theorem claim_C10_witness :
    parse_atom_ids (fun m => m) "7,8" (some molW) =
      parse_atom_ids_toks (fun m => m) [] (some molW) :=
  claim_C10 (fun m => m) "7,8" (some molW) [] ["7", "8"] rfl rfl
    (by decide) (by decide)
    (by
      intro t ht
      simp only [List.mem_cons, List.not_mem_nil, or_false] at ht
      rcases ht with rfl | rfl
      exacts [⟨7, rfl⟩, ⟨8, rfl⟩])

/-! ## Claim C1: the highlight-strategy dispatch -/

/-- Counterexample for C1: a request with both `atom_indices` present and a
marker symbol in the canonicalised SMILES.  The explicit atom-id parser
produces bond 0 coloured red (isotope 100), but the response handed on
comes from marker resolution — bond 0 coloured with the single-marker
default green — so the 4.1 result IS replaced by the 4.2 result. -/
theorem claim_C1_counterexample :
    parse_atom_ids (fun m => m) "0,1,100,False" (some molCXe) =
      .ok ([0], [(0, ((1 : ℚ), (0 : ℚ), (0 : ℚ)))], some molCXe) ∧
    hasXe "C[100Xe]".data = true ∧
    resolve_highlights mfsCXe (fun m => m) "C[100Xe]"
        { smiles := none, height := none, width := none,
          atom_indices := some "0,1,100,False", img_type := none } =
      .ok ([0], [(0, ((0 : ℚ), (1 : ℚ), (0 : ℚ)))], some (replaceAtom molCXe 1 dummyAtom)) ∧
    ((0 : ℚ), (1 : ℚ), (0 : ℚ)) ≠ ((1 : ℚ), (0 : ℚ), (0 : ℚ)) :=
  ⟨rfl, rfl, rfl, by decide⟩

/-- Claim C1, amended: the dispatch is ordered but NOT exclusive.  If
`atom_indices` is present, the explicit atom-id parser runs (its error
aborts the request); then, independently, if the canonicalised SMILES
contains "Xe", marker resolution runs and its result replaces any atom-id
result; no highlighting is applied only when `atom_indices` is absent and
no "Xe" occurs. -/
theorem claim_C1 (mfs : String → Option Mol) (reindex : Mol → Mol)
    (smiles : String) (req : HttpReq) :
    resolve_highlights mfs reindex smiles req =
      match req.atom_indices, hasXe smiles.data with
      | some ai, false => parse_atom_ids reindex ai (mfs smiles)
      | some ai, true =>
        (match parse_atom_ids reindex ai (mfs smiles) with
         | Except.error e => Except.error e
         | Except.ok _ =>
           match parse_xenons mfs smiles with
           | Except.error e => Except.error e
           | Except.ok (ids, cols, m) => Except.ok (ids, cols, some m))
      | none, true =>
        (match parse_xenons mfs smiles with
         | Except.error e => Except.error e
         | Except.ok (ids, cols, m) => Except.ok (ids, cols, some m))
      | none, false => Except.ok ([], [], none) := by
  unfold resolve_highlights
  cases hai : req.atom_indices with
  | none =>
    cases hxe : hasXe smiles.data
    · rfl
    · rfl
  | some ai =>
    cases hxe : hasXe smiles.data
    · dsimp only
      cases parse_atom_ids reindex ai (mfs smiles) <;> rfl
    · dsimp only
      cases parse_atom_ids reindex ai (mfs smiles) <;> rfl


/-! ## Claim C5: marker-atom resolution -/

theorem dictFind_map_update (d : List (Nat × Colour)) (k : Nat) (v : Colour)
    (h : (dictFind d k).isSome = true) :
    dictFind (d.map (fun p => if p.1 = k then (k, v) else p)) k = some v := by
  induction d with
  | nil => simp [dictFind] at h
  | cons p rest ih =>
    by_cases hp : p.1 = k
    · simp [dictFind, hp]
    · have h' : (dictFind rest k).isSome = true := by
        simpa [dictFind, hp] using h
      simpa [dictFind, hp] using ih h'

theorem dictFind_append_miss (d : List (Nat × Colour)) (k : Nat) (v : Colour) :
    dictFind (d ++ [(k, v)]) k = some v ∨ (dictFind d k).isSome = true := by
  induction d with
  | nil => left; simp [dictFind]
  | cons p rest ih =>
    by_cases hp : p.1 = k
    · right; simp [dictFind, hp]
    · rcases ih with ih | ih
      · left; simpa [dictFind, hp] using ih
      · right; simpa [dictFind, hp] using ih

/-- Setting a key makes it the key's value. -/
theorem dictFind_dictSet_self (d : List (Nat × Colour)) (k : Nat) (v : Colour) :
    dictFind (dictSet d k v) k = some v := by
  unfold dictSet
  by_cases h : (dictFind d k).isSome = true
  · simp only [h, if_true]
    exact dictFind_map_update d k v h
  · simp only [h, if_false]
    rcases dictFind_append_miss d k v with h2 | h2
    · exact h2
    · exact absurd h2 h

theorem dictFind_map_update_ne (d : List (Nat × Colour)) (k : Nat) (v : Colour)
    (q : Nat) (h : q ≠ k) :
    dictFind (d.map (fun p => if p.1 = k then (k, v) else p)) q = dictFind d q := by
  induction d with
  | nil => simp [dictFind]
  | cons p rest ih =>
    by_cases hp : p.1 = k
    · have h1 : ¬(k = q) := fun he => h he.symm
      have h2 : ¬(p.1 = q) := by rw [hp]; exact h1
      simpa [dictFind, hp, h1, h2] using ih
    · by_cases hq : p.1 = q
      · simp [dictFind, hp, hq, h]
      · simpa [dictFind, hp, hq] using ih

theorem dictFind_append_ne (d : List (Nat × Colour)) (k : Nat) (v : Colour)
    (q : Nat) (h : q ≠ k) :
    dictFind (d ++ [(k, v)]) q = dictFind d q := by
  have h1 : ¬(k = q) := fun he => h he.symm
  induction d with
  | nil => simp [dictFind, h1]
  | cons p rest ih =>
    by_cases hq : p.1 = q
    · simp [dictFind, hq]
    · simpa [dictFind, hq] using ih

/-- Setting one key leaves every other key's value alone. -/
theorem dictFind_dictSet_ne (d : List (Nat × Colour)) (k : Nat) (v : Colour)
    (q : Nat) (h : q ≠ k) : dictFind (dictSet d k v) q = dictFind d q := by
  unfold dictSet
  by_cases hs : (dictFind d k).isSome = true
  · simp only [hs, if_true]
    exact dictFind_map_update_ne d k v q h
  · simp only [hs, if_false]
    exact dictFind_append_ne d k v q h

/-- A key of an updated dict is the written key or an old key. -/
theorem mem_dictKeys_dictSet (d : List (Nat × Colour)) (k : Nat) (v : Colour)
    (q : Nat) (h : q ∈ dictKeys (dictSet d k v)) : q = k ∨ q ∈ dictKeys d := by
  unfold dictSet at h
  by_cases hs : (dictFind d k).isSome = true
  · rw [if_pos hs] at h
    simp only [dictKeys, List.map_map, List.mem_map] at h
    obtain ⟨p, hp, hfp⟩ := h
    by_cases hpk : p.1 = k
    · left
      rw [← hfp]
      simp [Function.comp, hpk]
    · right
      simp only [dictKeys, List.mem_map]
      refine ⟨p, hp, ?_⟩
      rw [← hfp]
      simp [Function.comp, hpk]
  · rw [if_neg hs] at h
    simp only [dictKeys, List.map_append, List.mem_append] at h
    rcases h with h | h
    · right
      exact h
    · left
      simpa using h

/-- Helper: the head given by `head?` is a member. -/
theorem mem_of_head?_filter {α : Type} {l : List α} {a : α} (h : l.head? = some a) :
    a ∈ l := by
  cases l with
  | nil => cases h
  | cons b t =>
    injection h with h
    subst h
    exact List.mem_cons_self b t

/-- Every id `atomBondIds` produces is a valid bond id. -/
theorem mem_atomBondIds_lt (m : Mol) (a j : Nat) (h : j ∈ atomBondIds m a) :
    j < m.bonds.length := by
  unfold atomBondIds at h
  exact List.mem_range.1 (List.mem_filter.1 h).1

/-- Every id `getBondBetween` produces is a valid bond id. -/
theorem getBondBetween_lt (m : Mol) (a b : Int) (j : Nat)
    (h : getBondBetween m a b = some j) : j < m.bonds.length := by
  unfold getBondBetween at h
  exact List.mem_range.1 (List.mem_filter.1 (mem_of_head?_filter h)).1

/-- The keys of the isotope-colour table. -/
def isoKeys : List Int := [100, 101, 102, 103, 104, 105, 106, 107]

theorem isoColour_isSome_mem (k : Int)
    (h : (isoColour ISO_COLOUR_MAP k).isSome = true) : k ∈ isoKeys := by
  by_contra hk
  simp only [isoKeys, List.mem_cons, List.not_mem_nil, or_false, not_or] at hk
  obtain ⟨h1, h2, h3, h4, h5, h6, h7, h8⟩ := hk
  simp [isoColour, ISO_COLOUR_MAP, Ne.symm h1, Ne.symm h2, Ne.symm h3,
    Ne.symm h4, Ne.symm h5, Ne.symm h6, Ne.symm h7, Ne.symm h8] at h

/-- The eight colours of the table are pairwise distinct. -/
theorem isoColour_inj_on_keys :
    ∀ i ∈ isoKeys, ∀ j ∈ isoKeys, i ≠ j →
      isoColour ISO_COLOUR_MAP i ≠ isoColour ISO_COLOUR_MAP j := by decide

/-- Successful run of the marker loop: one bond id per marker, in order. -/
theorem xeLoop_run (m : Mol) (count : Nat) (fb : Nat → Nat) (col : Nat → Colour) :
    ∀ (xs : List Nat) (ids0 : List Nat) (cols0 : List (Nat × Colour)),
    (∀ x ∈ xs, (atomBondIds m x).head? = some (fb x)) →
    (∀ x ∈ xs, xeColour m count x = .ok (col x)) →
    ∃ cols, xeLoop m count xs (ids0, cols0) = .ok (ids0 ++ xs.map fb, cols) := by
  intro xs
  induction xs with
  | nil =>
    intro ids0 cols0 _ _
    exact ⟨cols0, by simp [xeLoop]⟩
  | cons x rest ih =>
    intro ids0 cols0 hb hc
    have hbx := hb x (by simp)
    have hcx := hc x (by simp)
    obtain ⟨cols, hcols⟩ := ih (ids0 ++ [fb x]) (dictSet cols0 (fb x) (col x))
      (fun y hy => hb y (by simp [hy])) (fun y hy => hc y (by simp [hy]))
    refine ⟨cols, ?_⟩
    simp only [xeLoop, hbx, hcx, hcols, List.map_cons]
    rw [List.append_assoc]
    rfl

/-- The marker loop never touches keys that are not among its bond ids. -/
theorem xeLoop_find_untouched (m : Mol) (count : Nat) :
    ∀ (xs : List Nat) (acc res : List Nat × List (Nat × Colour)),
    xeLoop m count xs acc = .ok res →
    ∀ k, (∀ x ∈ xs, ∀ b, (atomBondIds m x).head? = some b → b ≠ k) →
      dictFind res.2 k = dictFind acc.2 k := by
  intro xs
  induction xs with
  | nil =>
    intro acc res h k _
    injection h with h
    rw [← h]
  | cons x rest ih =>
    intro acc res h k hk
    simp only [xeLoop] at h
    cases hhb : (atomBondIds m x).head? with
    | none =>
      rw [hhb] at h
      exact Except.noConfusion h
    | some b =>
      rw [hhb] at h
      cases hcc : xeColour m count x with
      | error e =>
        rw [hcc] at h
        exact Except.noConfusion h
      | ok c =>
        rw [hcc] at h
        have hne : k ≠ b := fun he => hk x (by simp) b hhb he.symm
        have := ih _ _ h k (fun y hy b' hb' => hk y (by simp [hy]) b' hb')
        rw [this]
        exact dictFind_dictSet_ne acc.2 b c k hne

/-- After a successful run with pairwise distinct bond ids, each marker's
bond is mapped to that marker's colour. -/
theorem xeLoop_lookup (m : Mol) (count : Nat) (fb : Nat → Nat) (col : Nat → Colour) :
    ∀ (xs : List Nat) (ids0 : List Nat) (cols0 : List (Nat × Colour))
      (ids : List Nat) (cols : List (Nat × Colour)),
    (∀ x ∈ xs, (atomBondIds m x).head? = some (fb x)) →
    (∀ x ∈ xs, xeColour m count x = .ok (col x)) →
    List.Pairwise (fun a b => fb a ≠ fb b) xs →
    xeLoop m count xs (ids0, cols0) = .ok (ids, cols) →
    ∀ x ∈ xs, dictFind cols (fb x) = some (col x) := by
  intro xs
  induction xs with
  | nil =>
    intro ids0 cols0 ids cols _ _ _ _ x hx
    exact absurd hx (List.not_mem_nil x)
  | cons x rest ih =>
    intro ids0 cols0 ids cols hb hc hpw hrun y hy
    have hbx := hb x (by simp)
    have hcx := hc x (by simp)
    simp only [xeLoop, hbx, hcx] at hrun
    rcases List.mem_cons.1 hy with rfl | hy'
    · have huntouched := xeLoop_find_untouched m count rest
        (ids0 ++ [fb y], dictSet cols0 (fb y) (col y)) (ids, cols) hrun (fb y)
        (fun z hz b' hb' => by
          have : fb z = b' := by
            rw [hb z (by simp [hz])] at hb'
            injection hb'
          rw [← this]
          exact fun he => (List.pairwise_cons.1 hpw).1 z hz he.symm)
      rw [huntouched]
      exact dictFind_dictSet_self cols0 (fb y) (col y)
    · exact ih (ids0 ++ [fb x]) (dictSet cols0 (fb x) (col x)) ids cols
        (fun z hz => hb z (by simp [hz])) (fun z hz => hc z (by simp [hz]))
        (List.pairwise_cons.1 hpw).2 hrun y hy'

/-- Claim C5, amended: in marker-atom resolution each marker atom (atomic
number 54) contributes its first incident bond to the highlight list; with
exactly one marker that bond gets the fixed default colour (0,1,0)
regardless of isotope; with several markers each bond is coloured by its
marker's isotope via the fixed table, and — provided the markers' incident
bonds are pairwise distinct (the amendment: markers not bonded to each
other) — markers with distinct in-table isotopes get distinct bonds with
distinct colours. -/
theorem claim_C5 (mfs : String → Option Mol) (smi : String) (m : Mol) (fb : Nat → Nat)
    (hm : mfs smi = some m)
    (hb : ∀ x ∈ atomIdsWhere m (fun a => a.atomicNum = 54),
      (atomBondIds m x).head? = some (fb x)) :
    (∀ x, atomIdsWhere m (fun a => a.atomicNum = 54) = [x] →
      parse_xenons mfs smi =
        .ok ([fb x], [(fb x, ((0 : ℚ), (1 : ℚ), (0 : ℚ)))], replaceAtom m x dummyAtom)) ∧
    (1 < (atomIdsWhere m (fun a => a.atomicNum = 54)).length →
     (∀ x ∈ atomIdsWhere m (fun a => a.atomicNum = 54),
        (isoColour ISO_COLOUR_MAP (atomIsotope m x)).isSome = true) →
     List.Pairwise (fun a b => fb a ≠ fb b) (atomIdsWhere m (fun a => a.atomicNum = 54)) →
     ∃ cols,
       parse_xenons mfs smi =
         .ok ((atomIdsWhere m (fun a => a.atomicNum = 54)).map fb, cols,
           (atomIdsWhere m (fun a => a.atomicNum = 54)).foldl
             (fun mm j => replaceAtom mm j dummyAtom) m) ∧
       (∀ x ∈ atomIdsWhere m (fun a => a.atomicNum = 54),
          dictFind cols (fb x) = isoColour ISO_COLOUR_MAP (atomIsotope m x)) ∧
       (∀ x ∈ atomIdsWhere m (fun a => a.atomicNum = 54),
        ∀ y ∈ atomIdsWhere m (fun a => a.atomicNum = 54),
          atomIsotope m x ≠ atomIsotope m y →
          dictFind cols (fb x) ≠ dictFind cols (fb y))) := by
  constructor
  · intro x hxe
    have hbx : (atomBondIds m x).head? = some (fb x) :=
      hb x (by rw [hxe]; exact List.mem_singleton.2 rfl)
    unfold parse_xenons
    rw [hm]
    dsimp only
    rw [hxe]
    simp [xeLoop, hbx, xeColour, isoLookup, isoColour, ISO_COLOUR_MAP,
      dictSet, dictFind, List.foldl_cons, List.foldl_nil]
  · intro hcount hiso hpw
    have hcols : ∀ x ∈ atomIdsWhere m (fun a => a.atomicNum = 54),
        xeColour m (atomIdsWhere m (fun a => a.atomicNum = 54)).length x =
          .ok ((isoColour ISO_COLOUR_MAP (atomIsotope m x)).getD ((0 : ℚ), 0, 0)) := by
      intro x hx
      obtain ⟨c, hc⟩ := Option.isSome_iff_exists.1 (hiso x hx)
      unfold xeColour isoLookup
      rw [if_pos hcount, hc]
      simp [hc]
    obtain ⟨cols, hrun⟩ := xeLoop_run m (atomIdsWhere m (fun a => a.atomicNum = 54)).length
      fb (fun x => (isoColour ISO_COLOUR_MAP (atomIsotope m x)).getD ((0 : ℚ), 0, 0))
      (atomIdsWhere m (fun a => a.atomicNum = 54)) [] [] hb hcols
    have hlook : ∀ x ∈ atomIdsWhere m (fun a => a.atomicNum = 54),
        dictFind cols (fb x) = isoColour ISO_COLOUR_MAP (atomIsotope m x) := by
      intro x hx
      have h1 := xeLoop_lookup m (atomIdsWhere m (fun a => a.atomicNum = 54)).length
        fb (fun x => (isoColour ISO_COLOUR_MAP (atomIsotope m x)).getD ((0 : ℚ), 0, 0))
        (atomIdsWhere m (fun a => a.atomicNum = 54)) [] []
        ([] ++ (atomIdsWhere m (fun a => a.atomicNum = 54)).map fb) cols
        hb hcols hpw hrun x hx
      rw [h1]
      obtain ⟨c, hc⟩ := Option.isSome_iff_exists.1 (hiso x hx)
      rw [hc]
      simp [hc]
    refine ⟨cols, ?_, hlook, ?_⟩
    · unfold parse_xenons
      rw [hm]
      dsimp only
      rw [hrun]
      rfl
    · intro x hx y hy hne
      rw [hlook x hx, hlook y hy]
      have hix := isoColour_isSome_mem _ (hiso x hx)
      have hiy := isoColour_isSome_mem _ (hiso y hy)
      exact isoColour_inj_on_keys _ hix _ hiy
        (fun he => hne (by exact_mod_cast he))

/-- Witness for C5: the single-marker molecule of `C[100Xe]` gets its bond
highlighted in the default green despite its isotope 100 (red in the
table). -/
theorem claim_C5_witness :
    parse_xenons (fun _ => some molCXe) "C[100Xe]" =
      .ok ([0], [(0, ((0 : ℚ), (1 : ℚ), (0 : ℚ)))], replaceAtom molCXe 1 dummyAtom) :=
  (claim_C5 (fun _ => some molCXe) "C[100Xe]" molCXe (fun _ => 0) rfl
    (by
      intro x hx
      have hxe : atomIdsWhere molCXe (fun a => a.atomicNum = 54) = [1] := rfl
      rw [hxe] at hx
      simp only [List.mem_singleton] at hx
      subst hx
      rfl)).1 1 rfl

/-- Counterexample for C5 as stated: in the molecule of `[100Xe][101Xe]`
the two markers have distinct isotopes 100 and 101, both table keys, and
each has a unique incident bond — but it is the same bond 0, so the result
highlights ONE bond with ONE colour (the second marker's green overwrote
the first marker's red), not two distinct bonds with two distinct
colours. -/
theorem claim_C5_counterexample :
    atomIdsWhere molXX (fun a => a.atomicNum = 54) = [0, 1] ∧
    atomIsotope molXX 0 = 100 ∧ atomIsotope molXX 1 = 101 ∧
    (isoColour ISO_COLOUR_MAP 100).isSome = true ∧
    (isoColour ISO_COLOUR_MAP 101).isSome = true ∧
    (atomBondIds molXX 0).head? = some 0 ∧
    (atomBondIds molXX 1).head? = some 0 ∧
    parse_xenons (fun _ => some molXX) "[100Xe][101Xe]" =
      .ok ([0, 0], [(0, ((0 : ℚ), (1 : ℚ), (0 : ℚ)))],
        replaceAtom (replaceAtom molXX 0 dummyAtom) 1 dummyAtom) ∧
    dictKeys [((0 : Nat), ((0 : ℚ), (1 : ℚ), (0 : ℚ)))] = [0] :=
  ⟨rfl, rfl, rfl, rfl, rfl, rfl, rfl, rfl, rfl⟩

/-! ## Claim C8: highlight keys are valid bond ids of the rendered molecule -/

theorem length_filterMap_all_isSome {α β : Type} (f : α → Option β) :
    ∀ (l : List α), (∀ a ∈ l, (f a).isSome = true) →
      (l.filterMap f).length = l.length := by
  intro l
  induction l with
  | nil => intro _; rfl
  | cons a rest ih =>
    intro h
    have ha := h a (by simp)
    obtain ⟨b, hb⟩ := Option.isSome_iff_exists.1 ha
    simp only [List.filterMap_cons, hb, List.length_cons]
    rw [ih (fun x hx => h x (by simp [hx]))]

theorem get?_set_general {α : Type} (l : List α) (i j : Nat) (a : α) :
    (l.set i a).get? j = if i = j then (l.get? j).map (fun _ => a) else l.get? j := by
  induction l generalizing i j with
  | nil => simp
  | cons b t ih =>
    cases i with
    | zero => cases j <;> simp [List.set]
    | succ i2 =>
      cases j with
      | zero => simp [List.set]
      | succ j2 =>
        simp only [List.set, List.get?_cons_succ]
        rw [ih i2 j2]
        by_cases hij : i2 = j2
        · simp [hij]
        · simp [hij, fun he : i2 + 1 = j2 + 1 => hij (by omega)]

theorem get?_isSome_of_lt {α : Type} (l : List α) (n : Nat) (h : n < l.length) :
    (l.get? n).isSome = true := by
  rw [List.get?_eq_get h]
  rfl

/-- After `AddHs` and the dummy replacement, every original atom id still
holds an atom that survives hydrogen removal (given the original molecule
had no plain explicit hydrogens). -/
theorem keep_after_edit (m : Mol) (r : Nat) (hH : plainHfree m) (j : Nat)
    (hj : j < m.atoms.length) :
    (((replaceAtom (addHs m) r dummyAtom).atoms.get? j).any keepAtom) = true := by
  have horig : ∀ a, (addHs m).atoms.get? j = some a → keepAtom a = true := by
    intro a ha
    unfold addHs at ha
    dsimp only at ha
    rw [List.get?_append (by simpa using hj), List.get?_map] at ha
    cases hga : m.atoms.get? j with
    | none => rw [hga] at ha; cases ha
    | some a0 =>
      rw [hga] at ha
      injection ha with ha
      have hk := hH a0 (List.get?_mem hga)
      rw [← ha]
      simpa [keepAtom] using hk
  have hlen : j < (addHs m).atoms.length := by
    unfold addHs
    dsimp only
    rw [List.length_append, List.length_map]
    omega
  unfold replaceAtom
  dsimp only
  rw [get?_set_general]
  by_cases hrj : r = j
  · rw [if_pos hrj]
    cases hga : (addHs m).atoms.get? j with
    | none =>
      exact absurd (List.get?_eq_none.1 hga) (by omega)
    | some a0 => simp [dummyAtom, keepAtom]
  · rw [if_neg hrj]
    cases hga : (addHs m).atoms.get? j with
    | none =>
      exact absurd (List.get?_eq_none.1 hga) (by omega)
    | some a0 => simpa using horig a0 hga

/-- The round-trip hydrogen removal cannot lose original bonds: the edited
molecule has at least as many bonds as the molecule before `AddHs`. -/
theorem bonds_edit_ge (m : Mol) (r : Nat) (hH : plainHfree m) (hwf : molWF m) :
    m.bonds.length ≤ (removeHs (replaceAtom (addHs m) r dummyAtom)).bonds.length := by
  obtain ⟨added, hadded⟩ :
      ∃ t, (replaceAtom (addHs m) r dummyAtom).bonds = m.bonds ++ t := ⟨_, rfl⟩
  unfold removeHs
  dsimp only
  rw [hadded, List.filterMap_append, List.length_append]
  refine le_trans ?_ (Nat.le_add_right _ _)
  rw [length_filterMap_all_isSome]
  · intro bd hbd
    obtain ⟨h1, h2⟩ := hwf bd hbd
    have k1 := keep_after_edit m r hH bd.beginAtom h1
    have k2 := keep_after_edit m r hH bd.endAtom h2
    rw [List.get?_eq_getElem?] at k1 k2
    simp [k1, k2]

/-- Hydrogen removal leaves no plain hydrogen behind. -/
theorem plainHfree_removeHs (m : Mol) : plainHfree (removeHs m) := by
  intro a ha
  unfold removeHs at ha
  dsimp only at ha
  obtain ⟨j, hj, hget⟩ := List.mem_filterMap.1 ha
  have hkeep := (List.mem_filter.1 hj).2
  rw [List.get?_eq_getElem?] at hget
  simpa [hget] using hkeep

theorem count_lt_filter_length (keep : Nat → Bool) (j len : Nat) (hj : j < len)
    (hkj : keep j = true) :
    ((List.range j).filter keep).length < ((List.range len).filter keep).length := by
  have h1 : (List.range (j + 1)).filter keep = (List.range j).filter keep ++ [j] := by
    rw [List.range_succ, List.filter_append]
    simp [hkj]
  have h2 := ((List.range_sublist.2 (by omega : j + 1 ≤ len)).filter keep).length_le
  rw [h1, List.length_append] at h2
  simpa using h2

/-- Hydrogen removal produces well-formed bonds. -/
theorem molWF_removeHs (m : Mol) : molWF (removeHs m) := by
  intro bd hbd
  unfold removeHs at hbd ⊢
  dsimp only at hbd ⊢
  obtain ⟨bd0, hbd0, hf⟩ := List.mem_filterMap.1 hbd
  by_cases hkeep : ((m.atoms.get? bd0.beginAtom).any keepAtom
      && (m.atoms.get? bd0.endAtom).any keepAtom) = true
  · rw [if_pos hkeep] at hf
    injection hf with hf
    obtain ⟨kb, ke⟩ := (Bool.and_eq_true _ _).mp hkeep
    have hlb : bd0.beginAtom < m.atoms.length := by
      by_contra hge
      rw [List.get?_eq_none.2 (by omega)] at kb
      cases kb
    have hle : bd0.endAtom < m.atoms.length := by
      by_contra hge
      rw [List.get?_eq_none.2 (by omega)] at ke
      cases ke
    have hatlen : (((List.range m.atoms.length).filter
          (fun j => (m.atoms.get? j).any keepAtom)).filterMap
          (fun j => m.atoms.get? j)).length =
        ((List.range m.atoms.length).filter
          (fun j => (m.atoms.get? j).any keepAtom)).length := by
      rw [length_filterMap_all_isSome]
      intro j hjf
      exact get?_isSome_of_lt _ _ (List.mem_range.1 (List.mem_filter.1 hjf).1)
    rw [← hf]
    constructor
    · rw [hatlen]
      exact count_lt_filter_length _ _ _ hlb kb
    · rw [hatlen]
      exact count_lt_filter_length _ _ _ hle ke
  · rw [if_neg hkeep] at hf
    cases hf

/-- The loop invariant of `parse_atom_ids`: every colour key recorded so
far is a valid bond id of the current molecule, and the current molecule
(when present) is plain-hydrogen-free and well formed. -/
def aiInv (st : AIState) : Prop :=
  (∀ k ∈ dictKeys st.bond_colours, ∃ mm, st.mol = some mm ∧ k < mm.bonds.length) ∧
  (∀ mm, st.mol = some mm → plainHfree mm ∧ molWF mm)

/-- The common tail of the group body: resolving the bond, colouring it and
writing the new state preserves the invariant, provided the resolved
molecule dominates all previously recorded keys. -/
theorem aiStep_tail_inv (st st1 : AIState) (mcur : Mol) (x1 x2 : Int)
    (h : (match getBondBetween mcur x1 x2 with
          | none => (Except.error PyErr.attributeError : Except PyErr AIState)
          | some b =>
            match st.iso with
            | none => Except.error PyErr.nameError
            | some iso =>
              match isoLookup iso with
              | Except.error e => Except.error e
              | Except.ok colour =>
                Except.ok (AIState.mk (st.bond_ids ++ [b]) []
                  (dictSet st.bond_colours b colour) (some mcur) st.iso)) =
          Except.ok st1)
    (hkeys : ∀ k ∈ dictKeys st.bond_colours, k < mcur.bonds.length)
    (hmol : plainHfree mcur ∧ molWF mcur) : aiInv st1 := by
  cases hgb : getBondBetween mcur x1 x2 with
  | none =>
    simp only [hgb] at h
    exact Except.noConfusion h
  | some b =>
    simp only [hgb] at h
    cases hiso : st.iso with
    | none =>
      simp only [hiso] at h
      exact Except.noConfusion h
    | some iso =>
      simp only [hiso] at h
      cases hlk : isoLookup iso with
      | error e =>
        simp only [hlk] at h
        exact Except.noConfusion h
      | ok colour =>
        simp only [hlk] at h
        injection h with h
        subst h
        constructor
        · intro k hk
          refine ⟨mcur, rfl, ?_⟩
          rcases mem_dictKeys_dictSet st.bond_colours b colour k hk with rfl | hk2
          · exact getBondBetween_lt mcur x1 x2 k hgb
          · exact hkeys k hk2
        · intro mm hmm
          injection hmm with hmm
          rw [← hmm]
          exact hmol

/-- One loop iteration preserves the invariant. -/
theorem aiStep_inv (reindex : Mol → Mol)
    (hre1 : ∀ mm, (reindex mm).bonds.length = mm.bonds.length)
    (hre2 : ∀ mm, plainHfree mm → plainHfree (reindex mm))
    (hre3 : ∀ mm, molWF mm → molWF (reindex mm))
    (i : Nat) (tok : String) (st st1 : AIState)
    (h : aiStep reindex i tok st = .ok st1) (hinv : aiInv st) : aiInv st1 := by
  unfold aiStep at h
  by_cases h01 : i % 4 = 0 ∨ i % 4 = 1
  · rw [if_pos h01] at h
    cases hpi : pyInt tok with
    | error e =>
      simp only [hpi] at h
      exact Except.noConfusion h
    | ok n =>
      simp only [hpi] at h
      injection h with h
      subst h
      exact ⟨hinv.1, hinv.2⟩
  · rw [if_neg h01] at h
    by_cases h2 : i % 4 = 2
    · rw [if_pos h2] at h
      cases hpi : pyInt tok with
      | error e =>
      simp only [hpi] at h
      exact Except.noConfusion h
      | ok n =>
        simp only [hpi] at h
        injection h with h
        subst h
        exact ⟨hinv.1, hinv.2⟩
    · rw [if_neg h2] at h
      cases hpb : parse_bool tok with
      | error e =>
        simp only [hpb] at h
        exact Except.noConfusion h
      | ok add_hs =>
        simp only [hpb] at h
        cases ha1 : pyIndex st.atom_ids 0 with
        | error e =>
          simp only [ha1] at h
          exact Except.noConfusion h
        | ok a1 =>
          simp only [ha1] at h
          cases ha2 : pyIndex st.atom_ids 1 with
          | error e =>
            simp only [ha2] at h
            exact Except.noConfusion h
          | ok a2 =>
            simp only [ha2] at h
            cases add_hs with
            | false =>
              rw [if_neg Bool.false_ne_true] at h
              cases hmol : st.mol with
              | none =>
                simp only [hmol] at h
                exact Except.noConfusion h
              | some m0 =>
                simp only [hmol] at h
                refine aiStep_tail_inv st st1 m0 a1 a2 h ?_ (hinv.2 m0 hmol)
                intro k hk
                obtain ⟨mm, hmm, hkm⟩ := hinv.1 k hk
                rw [hmol] at hmm
                injection hmm with hmm
                rw [hmm]
                exact hkm
            | true =>
              rw [if_pos (rfl : true = true)] at h
              cases hmol : st.mol with
              | none =>
                simp only [hmol] at h
                exact Except.noConfusion h
              | some m0 =>
                simp only [hmol] at h
                cases hr : (List.filter (fun j => Int.ofNat j == a1 || Int.ofNat j == a2)
                    (atomIdsWhere (addHs m0) (fun a => a.atomicNum = 1))).head? with
                | none =>
                  simp only [hr] at h
                  exact Except.noConfusion h
                | some r =>
                  simp only [hr] at h
                  have hm0 := hinv.2 m0 hmol
                  have hged := bonds_edit_ge m0 r hm0.1 hm0.2
                  have hHm3 := hre2 _ (plainHfree_removeHs
                    (replaceAtom (addHs m0) r dummyAtom))
                  have hWm3 := hre3 _ (molWF_removeHs
                    (replaceAtom (addHs m0) r dummyAtom))
                  have hlen := hre1 (removeHs (replaceAtom (addHs m0) r dummyAtom))
                  cases hmapm : (atomIdsWhere
                      (reindex (removeHs (replaceAtom (addHs m0) r dummyAtom)))
                      (fun a => a.atomicNum = 0)).mapM
                      (fun j =>
                        match (atomBondIds
                            (reindex (removeHs (replaceAtom (addHs m0) r dummyAtom)))
                            j).head? with
                        | none => (Except.error PyErr.indexError : Except PyErr (Int × Int))
                        | some b =>
                          match (reindex (removeHs
                              (replaceAtom (addHs m0) r dummyAtom))).bonds.get? b with
                          | none => Except.error PyErr.indexError
                          | some bd => Except.ok ((bd.beginAtom : Int), (bd.endAtom : Int))) with
                  | error e =>
                    simp only [hmapm] at h
                    exact Except.noConfusion h
                  | ok pairs =>
                    simp only [hmapm] at h
                    cases hph : pairs.head? with
                    | none =>
                      simp only [hph] at h
                      exact Except.noConfusion h
                    | some xy =>
                      simp only [hph] at h
                      refine aiStep_tail_inv st st1
                        (reindex (removeHs (replaceAtom (addHs m0) r dummyAtom)))
                        xy.1 xy.2 ?_ ?_ ⟨hHm3, hWm3⟩
                      · cases xy
                        exact h
                      · intro k hk
                        obtain ⟨mm, hmm, hkm⟩ := hinv.1 k hk
                        rw [hmol] at hmm
                        injection hmm with hmm
                        rw [← hmm] at hkm
                        omega

/-- The whole token loop preserves the invariant. -/
theorem aiLoop_inv (reindex : Mol → Mol)
    (hre1 : ∀ mm, (reindex mm).bonds.length = mm.bonds.length)
    (hre2 : ∀ mm, plainHfree mm → plainHfree (reindex mm))
    (hre3 : ∀ mm, molWF mm → molWF (reindex mm)) :
    ∀ (toks : List String) (i : Nat) (st st1 : AIState),
      aiLoop reindex toks i st = .ok st1 → aiInv st → aiInv st1 := by
  intro toks
  induction toks with
  | nil =>
    intro i st st1 h hinv
    injection h with h
    rw [← h]
    exact hinv
  | cons t rest ih =>
    intro i st st1 h hinv
    simp only [aiLoop] at h
    cases hstep : aiStep reindex i t st with
    | error e =>
      simp only [hstep] at h
      exact Except.noConfusion h
    | ok st2 =>
      simp only [hstep] at h
      exact ih (i + 1) st2 st1 h
        (aiStep_inv reindex hre1 hre2 hre3 i t st st2 hstep hinv)

/-- `parse_atom_ids` output form of the invariant. -/
theorem parse_atom_ids_keys (reindex : Mol → Mol) (ai : String) (molIn : Option Mol)
    (hre1 : ∀ mm, (reindex mm).bonds.length = mm.bonds.length)
    (hre2 : ∀ mm, plainHfree mm → plainHfree (reindex mm))
    (hre3 : ∀ mm, molWF mm → molWF (reindex mm))
    (hIn : ∀ mm, molIn = some mm → plainHfree mm ∧ molWF mm)
    (ids : List Nat) (cols : List (Nat × Colour)) (molOpt : Option Mol)
    (h : parse_atom_ids reindex ai molIn = .ok (ids, cols, molOpt)) :
    ∀ k ∈ dictKeys cols, ∃ mm, molOpt = some mm ∧ k < mm.bonds.length := by
  unfold parse_atom_ids parse_atom_ids_toks at h
  cases hrun : aiLoop reindex (pySplitComma ai) 0 (initAIState molIn) with
  | error e =>
    simp only [hrun] at h
    exact Except.noConfusion h
  | ok st =>
    simp only [hrun] at h
    injection h with h
    have hinv := aiLoop_inv reindex hre1 hre2 hre3 (pySplitComma ai) 0
      (initAIState molIn) st hrun
      ⟨by simp [initAIState, dictKeys, dictFind], fun mm hmm => hIn mm hmm⟩
    intro k hk
    have hc : cols = st.bond_colours := by
      have := congrArg (fun p => p.2.1) h
      simpa using this.symm
    have hmo : molOpt = st.mol := by
      have := congrArg (fun p => p.2.2) h
      simpa using this.symm
    rw [hc] at hk
    obtain ⟨mm, hmm, hkm⟩ := hinv.1 k hk
    exact ⟨mm, by rw [hmo, hmm], hkm⟩

/-- The marker loop only records valid bond ids. -/
theorem xeLoop_keys_lt (m : Mol) (count : Nat) :
    ∀ (xs : List Nat) (acc res : List Nat × List (Nat × Colour)),
      xeLoop m count xs acc = .ok res →
      (∀ k ∈ dictKeys acc.2, k < m.bonds.length) →
      ∀ k ∈ dictKeys res.2, k < m.bonds.length := by
  intro xs
  induction xs with
  | nil =>
    intro acc res h hacc
    injection h with h
    rw [← h]
    exact hacc
  | cons x rest ih =>
    intro acc res h hacc
    simp only [xeLoop] at h
    cases hhb : (atomBondIds m x).head? with
    | none =>
      simp only [hhb] at h
      exact Except.noConfusion h
    | some b =>
      simp only [hhb] at h
      cases hcc : xeColour m count x with
      | error e =>
        simp only [hcc] at h
        exact Except.noConfusion h
      | ok c =>
        simp only [hcc] at h
        refine ih _ res h ?_
        intro k hk
        rcases mem_dictKeys_dictSet acc.2 b c k hk with rfl | hk2
        · exact mem_atomBondIds_lt m x k (mem_of_head?_filter hhb)
        · exact hacc k hk2

/-- `ReplaceAtom` folds do not change the bond list. -/
theorem foldl_replace_bonds (xs : List Nat) :
    ∀ (m : Mol),
      (xs.foldl (fun mm j => replaceAtom mm j dummyAtom) m).bonds = m.bonds := by
  induction xs with
  | nil => intro m; rfl
  | cons x rest ih =>
    intro m
    simp only [List.foldl_cons]
    rw [ih]
    rfl

/-- `parse_xenons` only records valid bond ids of the molecule it returns. -/
theorem parse_xenons_keys (mfs : String → Option Mol) (smi : String)
    (ids : List Nat) (cols : List (Nat × Colour)) (molE : Mol)
    (h : parse_xenons mfs smi = .ok (ids, cols, molE)) :
    ∀ k ∈ dictKeys cols, k < molE.bonds.length := by
  unfold parse_xenons at h
  cases hm : mfs smi with
  | none =>
    simp only [hm] at h
    exact Except.noConfusion h
  | some m =>
    simp only [hm] at h
    cases hrun : xeLoop m (atomIdsWhere m (fun a => a.atomicNum = 54)).length
        (atomIdsWhere m (fun a => a.atomicNum = 54)) ([], []) with
    | error e =>
      simp only [hrun] at h
      exact Except.noConfusion h
    | ok res =>
      simp only [hrun] at h
      have hkeys := xeLoop_keys_lt m _ _ _ res hrun
        (by intro k hk; simp [dictKeys] at hk)
      injection h with h
      have hcols : res.2 = cols := congrArg (fun p => p.2.1) h
      have hmolE : (atomIdsWhere m (fun a => a.atomicNum = 54)).foldl
          (fun mm j => replaceAtom mm j dummyAtom) m = molE :=
        congrArg (fun p => p.2.2) h
      intro k hk
      rw [← hmolE, foldl_replace_bonds]
      exact hkeys k (by rw [hcols]; exact hk)

theorem keys_form_bridge (cols : List (Nat × Colour)) (molOpt : Option Mol)
    (hex : ∀ k ∈ dictKeys cols, ∃ mm, molOpt = some mm ∧ k < mm.bonds.length) :
    (∀ mm, molOpt = some mm → ∀ k ∈ dictKeys cols, k < mm.bonds.length) ∧
    (dictKeys cols ≠ [] → molOpt ≠ none) := by
  constructor
  · intro mm hmm k hk
    obtain ⟨mm2, hmm2, hk2⟩ := hex k hk
    rw [hmm] at hmm2
    injection hmm2 with hmm2
    rw [hmm2]
    exact hk2
  · intro hne
    obtain ⟨k, hk⟩ := List.exists_mem_of_ne_nil _ hne
    obtain ⟨mm2, hmm2, _⟩ := hex k hk
    rw [hmm2]
    simp

/-- Claim C8: for every request, every key of the bond-colour mapping that
`get_params` hands to the renderer is a valid bond id of the molecule
handed along with it (and a molecule is handed whenever the mapping is
nonempty).  The hypotheses say that the abstract canonical relabelling of
the SMILES round trip preserves bond count, hydrogen-freeness and
well-formedness, and that parsed molecules carry no plain explicit
hydrogens and have in-range bond endpoints — the shape RDKit guarantees. -/
theorem claim_C8 (mfs : String → Option Mol) (reindex : Mol → Mol)
    (smiles : String) (req : HttpReq)
    (hre1 : ∀ mm, (reindex mm).bonds.length = mm.bonds.length)
    (hre2 : ∀ mm, plainHfree mm → plainHfree (reindex mm))
    (hre3 : ∀ mm, molWF mm → molWF (reindex mm))
    (hmfs : ∀ s mm, mfs s = some mm → plainHfree mm ∧ molWF mm)
    (ids : List Nat) (cols : List (Nat × Colour)) (molOpt : Option Mol)
    (h : resolve_highlights mfs reindex smiles req = .ok (ids, cols, molOpt)) :
    (∀ mm, molOpt = some mm → ∀ k ∈ dictKeys cols, k < mm.bonds.length) ∧
    (dictKeys cols ≠ [] → molOpt ≠ none) := by
  unfold resolve_highlights at h
  have hxen : ∀ (h2 : (match parse_xenons mfs smiles with
      | Except.error e => (Except.error e : Except PyErr (List Nat × List (Nat × Colour) × Option Mol))
      | Except.ok (i2, c2, m2) => Except.ok (i2, c2, some m2)) = Except.ok (ids, cols, molOpt)),
      (∀ mm, molOpt = some mm → ∀ k ∈ dictKeys cols, k < mm.bonds.length) ∧
      (dictKeys cols ≠ [] → molOpt ≠ none) := by
    intro h2
    cases hpx : parse_xenons mfs smiles with
    | error e =>
      simp only [hpx] at h2
      exact Except.noConfusion h2
    | ok r =>
      obtain ⟨i2, c2, m2⟩ := r
      simp only [hpx] at h2
      injection h2 with h2
      have hc : c2 = cols := congrArg (fun p => p.2.1) h2
      have hm : (some m2 : Option Mol) = molOpt := congrArg (fun p => p.2.2) h2
      refine keys_form_bridge cols molOpt ?_
      intro k hk
      refine ⟨m2, hm.symm, ?_⟩
      exact parse_xenons_keys mfs smiles i2 c2 m2 hpx k (by rw [hc]; exact hk)
  cases hai : req.atom_indices with
  | none =>
    simp only [hai] at h
    cases hxe : hasXe smiles.data with
    | false =>
      simp only [hxe] at h
      rw [if_neg Bool.false_ne_true] at h
      injection h with h
      have hc : ([] : List (Nat × Colour)) = cols := congrArg (fun p => p.2.1) h
      rw [← hc]
      exact ⟨fun mm _ k hk => absurd hk (by simp [dictKeys]), fun hne => absurd rfl hne⟩
    | true =>
      simp only [hxe] at h
      rw [if_pos trivial] at h
      exact hxen h
  | some ai =>
    simp only [hai] at h
    cases hpai : parse_atom_ids reindex ai (mfs smiles) with
    | error e =>
      simp only [hpai] at h
      exact Except.noConfusion h
    | ok r =>
      obtain ⟨i1, c1, mo1⟩ := r
      simp only [hpai] at h
      cases hxe : hasXe smiles.data with
      | false =>
        simp only [hxe] at h
        rw [if_neg Bool.false_ne_true] at h
        injection h with h
        have hc : c1 = cols := congrArg (fun p => p.2.1) h
        have hm : mo1 = molOpt := congrArg (fun p => p.2.2) h
        refine keys_form_bridge cols molOpt ?_
        intro k hk
        have := parse_atom_ids_keys reindex ai (mfs smiles) hre1 hre2 hre3
          (fun mm hmm => hmfs smiles mm hmm) i1 c1 mo1 hpai k (by rw [hc]; exact hk)
        rw [hm] at this
        exact this
      | true =>
        simp only [hxe] at h
        rw [if_pos trivial] at h
        exact hxen h

/-- Witness for C8 on the two-marker molecule of `[100Xe]C[101Xe]`: the
recorded key 0 is a valid bond id of the edited molecule handed on. -/
theorem claim_C8_witness :
    0 < (replaceAtom (replaceAtom mol2Xe 1 dummyAtom) 2 dummyAtom).bonds.length := by
  have h := claim_C8 (fun s => if s = "[100Xe]C[101Xe]" then some mol2Xe else none)
    (fun m => m) "[100Xe]C[101Xe]"
    { smiles := none, height := none, width := none, atom_indices := none,
      img_type := none }
    (fun _ => rfl) (fun _ hm => hm) (fun _ hm => hm)
    (by
      intro s mm hsm
      have hsm2 : (if s = "[100Xe]C[101Xe]" then (some mol2Xe : Option Mol)
          else none) = some mm := hsm
      by_cases hs : s = "[100Xe]C[101Xe]"
      · rw [if_pos hs] at hsm2
        injection hsm2 with hsm2
        rw [← hsm2]
        exact ⟨by unfold plainHfree; decide, by unfold molWF; decide⟩
      · rw [if_neg hs] at hsm2
        exact Option.noConfusion hsm2)
    [0, 1] [(0, ((1 : ℚ), (0 : ℚ), (0 : ℚ))), (1, ((0 : ℚ), (1 : ℚ), (0 : ℚ)))]
    (some (replaceAtom (replaceAtom mol2Xe 1 dummyAtom) 2 dummyAtom)) rfl
  exact h.1 _ rfl 0 (by decide)
